import Mathlib

/-!
Verification of the nim-usage-scanner detection-and-enrichment pipeline.

This file gives a shallow embedding, in Lean 4, of the pure logic of the
scanner (src/scanner.rs), the NGC enrichment client (src/ngc_api.rs) and the
aggregation layer (src/models.rs), together with theorems settling the
claims about them.

Modelling conventions:
* Rust `String`/`&str` are Lean `String` (operated on through `String.data`,
  a `List Char`).
* The regular expressions of scanner.rs are embedded as deterministic
  scanning functions over `List Char`.  Each embedded matcher documents the
  regex it implements; leftmost-match semantics is obtained by trying every
  start position from the left (`scanPositions`), and the greedy/backtracking
  behaviour of the specific pattern is reproduced directly (for these
  patterns the split points of the quantified sub-expressions are forced by
  the character classes, except where noted, e.g. the `[^)]*` region of the
  constructor patterns, which is scanned rightmost-first, and the slash split
  of the YAML context pattern, which is also rightmost-first).
* The network is modelled as an oracle: `get_with_retry` consumes a function
  from attempt number to HTTP outcome, and batch enrichment consumes a
  function from image URL to optional resolved tag.
-/

-- ============================================================================
-- Generic helpers over lists of characters
-- ============================================================================

/-- Rust `str::strip_prefix`: removes the first argument from the front of
the second, or fails. -/
def stripPre : List Char → List Char → Option (List Char)
  | [], l => some l
  | _ :: _, [] => none
  | p :: ps, c :: cs => if p = c then stripPre ps cs else none

/-- Rust `str::split(sep)` (as used in the scanner): splitting `""` gives
`[""]`, splitting `"a/b"` at `/` gives `["a", "b"]`, etc. -/
def splitOnChar (sep : Char) : List Char → List (List Char)
  | [] => [[]]
  | c :: cs =>
    if c = sep then [] :: splitOnChar sep cs
    else
      match splitOnChar sep cs with
      | [] => [[c]]
      | h :: t => (c :: h) :: t

/-- Joining with a single-character separator (Rust `Vec::join("/")`). -/
def joinSep (sep : Char) : List (List Char) → List Char
  | [] => []
  | [l] => l
  | l :: ls => l ++ sep :: joinSep sep ls

/-- Rust `str::ends_with`. -/
def endsWithL (l suf : List Char) : Bool := suf.isSuffixOf l

/-- Leftmost-match driver: try the position matcher `f` at every start
position from the left and return the first success, exactly the way a regex
`find`/`captures` walks a haystack. -/
def scanPositions {α : Type} (f : List Char → Option α) : List Char → Option α
  | [] => f []
  | c :: cs =>
    match f (c :: cs) with
    | some r => some r
    | none => scanPositions f cs

/-- Rightmost-first driver for a greedy region: try `f` at offset `k` first,
then `k - 1`, ..., down to offset `0`.  This reproduces the backtracking of a
greedy `[^)]*` that precedes `f`'s pattern. -/
def scanRightmost {α : Type} (f : List Char → Option α) : Nat → List Char → Option α
  | 0, cs => f cs
  | k + 1, cs =>
    match cs with
    | [] => f []
    | _ :: rest => (scanRightmost f k rest).orElse fun _ => f cs

-- ============================================================================
-- Character classes of the scanner's regexes
-- ============================================================================

/-- The class `[a-zA-Z0-9._-]` used by both container-image patterns (and as
the second segment class of the YAML context pattern). -/
def isNimC (c : Char) : Bool :=
  (97 ≤ c.toNat && c.toNat ≤ 122) || (65 ≤ c.toNat && c.toNat ≤ 90) ||
  (48 ≤ c.toNat && c.toNat ≤ 57) || c == '.' || c == '_' || c == '-'

/-- Unicode `White_Space`, the set matched by `\s` in the (Unicode-mode)
`regex` crate and trimmed by Rust `str::trim`. -/
def isUnicodeWhitespace (c : Char) : Bool :=
  let n := c.toNat
  (9 ≤ n && n ≤ 13) || n == 32 || n == 133 || n == 160 || n == 5760 ||
  (8192 ≤ n && n ≤ 8202) || n == 8232 || n == 8233 || n == 8239 ||
  n == 8287 || n == 12288

/-- A double or single quote (the set excluded by `[^"']`). -/
def isQuoteC (c : Char) : Bool := c == '"' || c == '\''

/-- Complement class used by the value of a quoted model assignment. -/
def isNotQuote (c : Char) : Bool := !isQuoteC c

/-- The class `[^\s"'\)]` that extends an endpoint URL. -/
def isEndpointTailChar (c : Char) : Bool :=
  !(isUnicodeWhitespace c || isQuoteC c || c == ')')

/-- The class of ASCII alphanumerics plus underscore, slash and dash:
first-segment class of the YAML context pattern (note: slash allowed, dot
not). -/
def isCtxHeadChar (c : Char) : Bool :=
  (97 ≤ c.toNat && c.toNat ≤ 122) || (65 ≤ c.toNat && c.toNat ≤ 90) ||
  (48 ≤ c.toNat && c.toNat ≤ 57) || c == '_' || c == '/' || c == '-'

/-- Rust `str::trim` (both ends, Unicode whitespace). -/
def rustTrim (s : String) : String :=
  String.mk (((s.data.dropWhile isUnicodeWhitespace).reverse.dropWhile
    isUnicodeWhitespace).reverse)

-- ============================================================================
-- Data model (src/models.rs)
-- ============================================================================

/-- models.rs `SourceType`. -/
inductive SourceType where
  | SourceCode
  | ActionsWorkflow
deriving DecidableEq, Repr

/-- models.rs `LocalNimMatch`. -/
structure LocalNimMatch where
  repository : String
  image_url : String
  tag : String
  resolved_tag : Option String
  file_path : String
  line_number : Nat
  match_context : String
deriving DecidableEq, Repr

/-- models.rs `HostedNimMatch`. -/
structure HostedNimMatch where
  repository : String
  endpoint_url : Option String
  model_name : Option String
  file_path : String
  line_number : Nat
  match_context : String
  function_id : Option String
  status : Option String
  container_image : Option String
deriving DecidableEq, Repr

/-- models.rs `NimFindings`. -/
structure NimFindings where
  local_nim : List LocalNimMatch
  hosted_nim : List HostedNimMatch
deriving DecidableEq, Repr

/-- models.rs `NimLocation`. -/
structure NimLocation where
  source_type : String
  repository : String
  file_path : String
  line_number : Nat
  match_context : String
deriving DecidableEq, Repr

/-- models.rs `AggregatedLocalNim`. -/
structure AggregatedLocalNim where
  image_url : String
  tag : String
  resolved_tag : Option String
  locations : List NimLocation
deriving DecidableEq, Repr

-- ============================================================================
-- Source type classification (scanner.rs `determine_source_type`)
-- ============================================================================

/-- Substring containment on character lists (Rust `str::contains`). -/
def containsSub (hay needle : List Char) : Bool :=
  match hay with
  | [] => needle.isPrefixOf []
  | _ :: rest => needle.isPrefixOf hay || containsSub rest needle

/-- scanner.rs `determine_source_type`: replace backslashes by slashes, then
classify as `ActionsWorkflow` iff the path contains `.github/workflows/` and
ends with `.yml` or `.yaml`. -/
def determine_source_type (file_path : String) : SourceType :=
  let normalized : List Char := file_path.data.map fun c => if c = '\\' then '/' else c
  if containsSub normalized ".github/workflows/".data &&
     (endsWithL normalized ".yml".data || endsWithL normalized ".yaml".data) then
    SourceType.ActionsWorkflow
  else
    SourceType.SourceCode

-- ============================================================================
-- Container-image patterns (scanner.rs LOCAL_NIM_FULL / LOCAL_NIM_NO_TAG)
-- ============================================================================

/-- The fixed registry namespace literal of both container patterns. -/
def nimRegistryLit : List Char := "nvcr.io/nim/".data

/-- Position matcher for LOCAL_NIM_FULL,
the regex `nvcr\.io/nim/([a-zA-Z0-9._-]+/[a-zA-Z0-9._-]+):([a-zA-Z0-9._-]+)`.
Returns the two halves of capture group 1 and capture group 2 (the tag).
Since the class excludes `/` and `:`, each `+` run is forced to be maximal
and no backtracking can occur. -/
def matchLocalFullAt (cs : List Char) : Option (List Char × List Char × List Char) :=
  match stripPre nimRegistryLit cs with
  | none => none
  | some rest =>
    let s1 := rest.takeWhile isNimC
    if s1.isEmpty then none
    else
      match rest.drop s1.length with
      | '/' :: r2 =>
        let s2 := r2.takeWhile isNimC
        if s2.isEmpty then none
        else
          match r2.drop s2.length with
          | ':' :: r3 =>
            let s3 := r3.takeWhile isNimC
            if s3.isEmpty then none else some (s1, s2, s3)
          | _ => none
      | _ => none

/-- Position matcher for LOCAL_NIM_NO_TAG, the regex
`nvcr\.io/nim/([a-zA-Z0-9._-]+/[a-zA-Z0-9._-]+)(?:[^:a-zA-Z0-9._-]|$)`.
The character after the group (if any) is automatically outside the segment
class by maximality of the run, so the trailing group reduces to the
requirement that it not be a colon. -/
def matchLocalNoTagAt (cs : List Char) : Option (List Char × List Char) :=
  match stripPre nimRegistryLit cs with
  | none => none
  | some rest =>
    let s1 := rest.takeWhile isNimC
    if s1.isEmpty then none
    else
      match rest.drop s1.length with
      | '/' :: r2 =>
        let s2 := r2.takeWhile isNimC
        if s2.isEmpty then none
        else
          match r2.drop s2.length with
          | [] => some (s1, s2)
          | c :: _ => if c == ':' then none else some (s1, s2)
      | _ => none

/-- scanner.rs `extract_local_nim`: try the tag-bearing pattern first, then
the no-tag pattern with the sentinel tag `"latest"`; at most one match per
line. -/
def extract_local_nim (line : String) (line_number : Nat)
    (file_path repository : String) : Option LocalNimMatch :=
  match scanPositions matchLocalFullAt line.data with
  | some (s1, s2, tg) =>
    some {
      repository := repository
      image_url := String.mk (nimRegistryLit ++ s1 ++ '/' :: s2)
      tag := String.mk tg
      resolved_tag := none
      file_path := file_path
      line_number := line_number
      match_context := rustTrim line }
  | none =>
    match scanPositions matchLocalNoTagAt line.data with
    | some (s1, s2) =>
      some {
        repository := repository
        image_url := String.mk (nimRegistryLit ++ s1 ++ '/' :: s2)
        tag := "latest"
        resolved_tag := none
        file_path := file_path
        line_number := line_number
        match_context := rustTrim line }
    | none => none

-- ============================================================================
-- Hosted-NIM patterns (scanner.rs HOSTED_ENDPOINT, MODEL_ASSIGN, CHATNVIDIA,
-- NVIDIA_EMBEDDINGS, NVIDIA_RERANK)
-- ============================================================================

/-- Position matcher for HOSTED_ENDPOINT, the regex
`https://(?:integrate|ai|build)\.api\.nvidia\.com[^\s"'\)]*`.
The three hostname alternatives are mutually exclusive (distinct first
characters), and the trailing class run is greedy with nothing after it, so
it is the maximal run.  Returns the whole matched text. -/
def matchEndpointAt (cs : List Char) : Option (List Char) :=
  match stripPre "https://".data cs with
  | none => none
  | some r0 =>
    let tryHost : List Char → Option (List Char × List Char) := fun h =>
      match stripPre (h ++ ".api.nvidia.com".data) r0 with
      | some r1 => some (h, r1)
      | none => none
    match (tryHost "integrate".data).orElse (fun _ =>
          (tryHost "ai".data).orElse (fun _ => tryHost "build".data)) with
    | none => none
    | some (h, r1) =>
      let tl := r1.takeWhile isEndpointTailChar
      some ("https://".data ++ h ++ ".api.nvidia.com".data ++ tl)

/-- The known organization literals of MODEL_ASSIGN's first alternative. -/
def knownOrgs : List (List Char) :=
  ["nvidia".data, "meta".data, "mistralai".data, "google".data,
   "deepseek".data, "stg".data]

/-- First alternative of MODEL_ASSIGN's capture group: a known organization
literal, a slash, and a non-empty quote-free remainder. -/
def modelAssignBranchOrg (v : List Char) : Bool :=
  knownOrgs.any fun o =>
    match stripPre (o ++ ['/']) v with
    | some r => !r.isEmpty
    | none => false

/-- Second alternative of MODEL_ASSIGN's capture group applied to a
quote-free value `v`: some split `v = a ++ slash ++ b` with `a`, `b`
non-empty, i.e. a slash at an index in `[1, length v - 2]`. -/
def modelAssignBranchSlash (v : List Char) : Bool :=
  ((v.drop 1).dropLast).contains '/'

/-- Position matcher for MODEL_ASSIGN, the regex
`model\s*[=:]\s*["']((nvidia|meta|mistralai|google|deepseek|stg)/[^"']+|[^"']+/[^"']+)["']`.
The quantified class `[^"']` is exactly the complement of the closing-quote
class, so the group always spans from the opening quote to the next quote;
the group matches iff one of the two alternatives can cover that span, and
either way the capture is that whole span. -/
def matchModelAssignAt (cs : List Char) : Option (List Char) :=
  match stripPre "model".data cs with
  | none => none
  | some r0 =>
    match r0.dropWhile isUnicodeWhitespace with
    | [] => none
    | c :: r2 =>
      if c == '=' || c == ':' then
        match r2.dropWhile isUnicodeWhitespace with
        | [] => none
        | q :: r4 =>
          if isQuoteC q then
            let v := r4.takeWhile isNotQuote
            match r4.drop v.length with
            | c2 :: _ =>
              if isQuoteC c2 && (modelAssignBranchOrg v || modelAssignBranchSlash v)
              then some v else none
            | [] => none
          else none
      else none

/-- The inner pattern `model\s*=\s*["']([^"']+)["']` shared by the three
client-constructor regexes (note: `=` only, no `:`). -/
def ctorModelSubAt (cs : List Char) : Option (List Char) :=
  match stripPre "model".data cs with
  | none => none
  | some r0 =>
    match r0.dropWhile isUnicodeWhitespace with
    | '=' :: r2 =>
      match r2.dropWhile isUnicodeWhitespace with
      | [] => none
      | q :: r4 =>
        if isQuoteC q then
          let v := r4.takeWhile isNotQuote
          if v.isEmpty then none
          else
            match r4.drop v.length with
            | _ :: _ => some v
            | [] => none
        else none
    | _ => none

/-- Position matcher for the constructor-call regexes
`NAME\s*\([^)]*model\s*=\s*["']([^"']+)["']` (NAME one of `ChatNVIDIA`,
`NVIDIAEmbeddings`, `NVIDIARerank`).  The greedy `[^)]*` prefers consuming as
much of the close-paren-free region as possible, so the inner pattern is
sought rightmost-first within that region. -/
def matchCtorCallAt (ctor : List Char) (cs : List Char) : Option (List Char) :=
  match stripPre ctor cs with
  | none => none
  | some r0 =>
    match r0.dropWhile isUnicodeWhitespace with
    | '(' :: r2 =>
      let limit := (r2.takeWhile fun c => !(c == ')')).length
      scanRightmost ctorModelSubAt limit r2
    | _ => none

/-- Leftmost CHATNVIDIA capture on a line. -/
def findChatNvidia (cs : List Char) : Option (List Char) :=
  scanPositions (matchCtorCallAt "ChatNVIDIA".data) cs

/-- Leftmost NVIDIA_EMBEDDINGS capture on a line. -/
def findNvidiaEmbeddings (cs : List Char) : Option (List Char) :=
  scanPositions (matchCtorCallAt "NVIDIAEmbeddings".data) cs

/-- Leftmost NVIDIA_RERANK capture on a line. -/
def findNvidiaRerank (cs : List Char) : Option (List Char) :=
  scanPositions (matchCtorCallAt "NVIDIARerank".data) cs

-- ============================================================================
-- URL-path model derivation (scanner.rs `extract_model_from_url`)
-- ============================================================================

/-- scanner.rs `extract_model_from_url`: strip the scheme, drop the domain,
rejoin the remaining path, reject generic endpoints, and, when at least four
path segments remain, return the literal last two segments as `org/model`
subject to the org blacklist. -/
def extract_model_from_url (url : String) : Option String :=
  match (stripPre "https://".data url.data).orElse
        (fun _ => stripPre "http://".data url.data) with
  | none => none
  | some rest =>
    let path := joinSep '/' ((splitOnChar '/' rest).drop 1)
    if path.isEmpty || path == "v1".data ||
       endsWithL path "/chat/completions".data ||
       endsWithL path "/embeddings".data ||
       endsWithL path "/completions".data then none
    else
      let parts := splitOnChar '/' path
      if 4 ≤ parts.length then
        let org := parts.getD (parts.length - 2) []
        let model := parts.getD (parts.length - 1) []
        if !org.isEmpty && !model.isEmpty &&
           !(org == "v1".data) && !(org == "chat".data) && !(org == "embeddings".data)
        then some (String.mk (org ++ '/' :: model))
        else none
      else none

-- ============================================================================
-- Hosted-NIM extraction (scanner.rs `extract_hosted_nim`)
-- ============================================================================

/-- scanner.rs `extract_hosted_nim`: independently extract an endpoint URL
and a model name (explicit assignment, then the three constructor patterns,
then URL-path derivation); emit one finding iff either was found. -/
def extract_hosted_nim (line : String) (line_number : Nat)
    (file_path repository : String) : List HostedNimMatch :=
  let endpoint := (scanPositions matchEndpointAt line.data).map String.mk
  let m0 := (scanPositions matchModelAssignAt line.data).map String.mk
  let m1 := match m0 with
    | some m => some m
    | none => (findChatNvidia line.data).map String.mk
  let m2 := match m1 with
    | some m => some m
    | none => (findNvidiaEmbeddings line.data).map String.mk
  let m3 := match m2 with
    | some m => some m
    | none => (findNvidiaRerank line.data).map String.mk
  let model_name := match m3 with
    | some m => some m
    | none =>
      match endpoint with
      | some url => extract_model_from_url url
      | none => none
  if endpoint.isSome || model_name.isSome then
    [{ repository := repository
       endpoint_url := endpoint
       model_name := model_name
       file_path := file_path
       line_number := line_number
       match_context := rustTrim line
       function_id := none
       status := none
       container_image := none }]
  else []

-- ============================================================================
-- YAML context search (scanner.rs `find_model_name_in_context`)
-- ============================================================================

/-- Candidate capture at a chosen slash index `i` of the YAML context
pattern: the first segment is the first `i` characters, the second segment is
the maximal `[a-zA-Z0-9._-]` run after the slash, required non-empty. -/
def ctxSplitAt (r : List Char) (i : Nat) : Option (List Char) :=
  let b := (r.drop (i + 1)).takeWhile isNimC
  if b.isEmpty then none else some (r.take i ++ '/' :: b)

/-- Try slash indices in the given order, first success wins. -/
def ctxTrySlashes (r : List Char) : List Nat → Option (List Char)
  | [] => none
  | i :: is =>
    match ctxSplitAt r i with
    | some v => some v
    | none => ctxTrySlashes r is

/-- Capture group of the YAML context pattern starting at `r`: a greedy
first-segment run (slash allowed) must end at some slash with index at least
1, followed by a non-empty second-segment run; greediness prefers the
rightmost eligible slash of the maximal first-class run. -/
def captureCtx (r : List Char) : Option (List Char) :=
  let a := r.takeWhile isCtxHeadChar
  let idxs := ((List.range a.length).filter fun i =>
    decide (1 ≤ i) && (a.getD i ' ' == '/')).reverse
  ctxTrySlashes r idxs

/-- Position matcher for the YAML context regex
`model(?:_name)?\s*[:=]\s*["']?([a-zA-Z0-9_∕-]+/[a-zA-Z0-9._-]+)["']?`
(∕ stands for the slash character).  The optional `_name` and the optional
opening quote are consumed when present; when present but not consumed the
rest of the pattern necessarily fails, so no backtracking is lost. -/
def ctxModelAt (cs : List Char) : Option (List Char) :=
  match stripPre "model".data cs with
  | none => none
  | some r0 =>
    let r1 := match stripPre "_name".data r0 with
      | some r => r
      | none => r0
    match r1.dropWhile isUnicodeWhitespace with
    | [] => none
    | c :: r3 =>
      if c == ':' || c == '=' then
        let r4 := r3.dropWhile isUnicodeWhitespace
        let r5 := match r4 with
          | [] => r4
          | q :: r => if isQuoteC q then r else r4
        captureCtx r5
      else none

/-- Leftmost YAML-context model capture on a line. -/
def modelNameCapture (line : String) : Option String :=
  (scanPositions ctxModelAt line.data).map String.mk

/-- Search the given line indices in order; the first line whose context
pattern matches yields the capture (lines.get on an out-of-range index is
skipped, as in the Rust loop). -/
def searchIdxs (lines : List String) : List Nat → Option String
  | [] => none
  | i :: is =>
    match (lines.get? i).bind modelNameCapture with
    | some m => some m
    | none => searchIdxs lines is

/-- scanner.rs `find_model_name_in_context`: search backward from the line
before `current_line` down to `current_line - range` (saturating), then
forward from `current_line + 1` up to (exclusive) the minimum of
`current_line + range` and the number of lines. -/
def find_model_name_in_context (lines : List String) (current_line range : Nat) :
    Option String :=
  let start := current_line - range
  let backIdxs := (List.range' start (current_line - start)).reverse
  let stop := min (current_line + range) lines.length
  let fwdIdxs := List.range' (current_line + 1) (stop - (current_line + 1))
  match searchIdxs lines backIdxs with
  | some m => some m
  | none => searchIdxs lines fwdIdxs

-- ============================================================================
-- Deduplication (scanner.rs `deduplicate_results`)
-- ============================================================================

/-- Key of a container finding for deduplication. -/
def localKey (m : LocalNimMatch) : String × String × Nat :=
  (m.repository, m.file_path, m.line_number)

/-- Key of a hosted finding for deduplication. -/
def hostedKey (m : HostedNimMatch) : String × String × Nat :=
  (m.repository, m.file_path, m.line_number)

/-- The `retain`-with-`HashSet::insert` loop: keep an element iff its key
has not been seen before. -/
def dedupGo {α K : Type} [DecidableEq K] (key : α → K) (seen : List K) :
    List α → List α
  | [] => []
  | m :: ms =>
    if key m ∈ seen then dedupGo key seen ms
    else m :: dedupGo key (key m :: seen) ms

/-- scanner.rs `deduplicate_results`: deduplicate the container list and the
hosted list independently by (repository, file path, line number). -/
def deduplicate_results (findings : NimFindings) : NimFindings :=
  { local_nim := dedupGo localKey [] findings.local_nim
    hosted_nim := dedupGo hostedKey [] findings.hosted_nim }

-- ============================================================================
-- HTTP retry layer (ngc_api.rs `NgcClient::get_with_retry`)
-- ============================================================================

/-- Outcome of one `send()` call: an HTTP response with a status code, or a
transport-level error. -/
inductive HttpOutcome where
  | ok (status : Nat)
  | sendError (msg : String)
deriving DecidableEq, Repr

/-- The error remembered in `last_error` after a retryable failure. -/
inductive RetryErr where
  | rateLimited
  | serverError (status : Nat)
  | transport (msg : String)
deriving DecidableEq, Repr

/-- Result of `get_with_retry`: success on some attempt, an immediate
client-error bailout, or exhaustion carrying the last observed error. -/
inductive RetryResult where
  | success (attempt : Nat)
  | clientError (status : Nat)
  | exhausted (lastError : Option RetryErr)
deriving DecidableEq, Repr

/-- Observable run of the retry loop: its result, the sequence of sleep
durations (in seconds, in order), and the number of attempts made. -/
structure RetryRun where
  result : RetryResult
  sleeps : List Nat
  attempts : Nat
deriving DecidableEq, Repr

/-- ngc_api.rs `MAX_RETRIES`. -/
def MAX_RETRIES : Nat := 3

/-- reqwest `StatusCode::is_success`: 2xx. -/
def isSuccessStatus (s : Nat) : Bool := 200 ≤ s && s ≤ 299

/-- reqwest `StatusCode::is_server_error`: 5xx. -/
def isServerErrorStatus (s : Nat) : Bool := 500 ≤ s && s ≤ 599

/-- The body of the `for attempt in 1..=MAX_RETRIES` loop of
`get_with_retry`, with the network modelled as a map from attempt number to
outcome.  `remaining` counts the loop iterations left; falling off the loop
produces the exhaustion failure with the last observed error. -/
def getWithRetryGo (outcomes : Nat → HttpOutcome) :
    Nat → Nat → Option RetryErr → RetryRun
  | _, 0, lastError => ⟨RetryResult.exhausted lastError, [], 0⟩
  | attempt, remaining + 1, _lastError =>
    match outcomes attempt with
    | HttpOutcome.ok s =>
      if isSuccessStatus s then ⟨RetryResult.success attempt, [], 1⟩
      else if s = 429 then
        let r := getWithRetryGo outcomes (attempt + 1) remaining
          (some RetryErr.rateLimited)
        ⟨r.result, 2 ^ attempt :: r.sleeps, r.attempts + 1⟩
      else if isServerErrorStatus s then
        let r := getWithRetryGo outcomes (attempt + 1) remaining
          (some (RetryErr.serverError s))
        ⟨r.result, 1 :: r.sleeps, r.attempts + 1⟩
      else ⟨RetryResult.clientError s, [], 1⟩
    | HttpOutcome.sendError msg =>
      let r := getWithRetryGo outcomes (attempt + 1) remaining
        (some (RetryErr.transport msg))
      ⟨r.result, 1 :: r.sleeps, r.attempts + 1⟩

/-- ngc_api.rs `NgcClient::get_with_retry`. -/
def get_with_retry (outcomes : Nat → HttpOutcome) : RetryRun :=
  getWithRetryGo outcomes 1 MAX_RETRIES none

-- ============================================================================
-- Image-coordinate parsing (ngc_api.rs `NgcClient::parse_image_url`)
-- ============================================================================

/-- ngc_api.rs `NgcClient::parse_image_url`: strip the registry namespace,
split on slashes, and return the first two pieces as (team, model).  (The
source's `or_else` retries `strip_prefix` with the identical literal, which
is a no-op; a single strip is therefore an exact model.) -/
def parse_image_url (image_url : String) : Option (String × String) :=
  match stripPre nimRegistryLit image_url.data with
  | none => none
  | some stripped =>
    let parts := splitOnChar '/' stripped
    if 2 ≤ parts.length then
      some (String.mk (parts.getD 0 []), String.mk (parts.getD 1 []))
    else none

-- ============================================================================
-- Batch enrichment (ngc_api.rs `NgcClient::enrich_local_nim_matches`)
-- ============================================================================

/-- ngc_api.rs `NgcClient::enrich_local_nim_matches`, with
`resolve_latest_tag` modelled as an oracle from image URL to optional
resolved tag (a `none` models any failure of the remote lookup).  A match
whose declared tag is the sentinel `"latest"` or empty gets `resolved_tag`
set on success and is left unchanged on failure; all other matches are left
untouched. -/
def enrich_local_nim_matches (resolve : String → Option String)
    (findings : NimFindings) : NimFindings :=
  { findings with
    local_nim := findings.local_nim.map fun m =>
      if m.tag == "latest" || m.tag.isEmpty then
        match resolve m.image_url with
        | some actual_tag => { m with resolved_tag := some actual_tag }
        | none => m
      else m }

-- ============================================================================
-- Aggregation (models.rs `AggregatedFindings::from_findings`, container half)
-- ============================================================================

/-- The location record appended for a raw container finding. -/
def mkNimLocation (src : String) (m : LocalNimMatch) : NimLocation :=
  { source_type := src
    repository := m.repository
    file_path := m.file_path
    line_number := m.line_number
    match_context := m.match_context }

/-- One step of the container-aggregation loop: look up the (image URL, tag)
key; on first sight insert a new entry carrying the finding's identity and
enrichment fields, then (in either case) append a location record.  The map
is modelled as an association list, which fixes one (immaterial) output
order for the unordered `HashMap`. -/
def upsertLocal (src : String)
    (acc : List ((String × String) × AggregatedLocalNim)) (m : LocalNimMatch) :
    List ((String × String) × AggregatedLocalNim) :=
  let key := (m.image_url, m.tag)
  let loc := mkNimLocation src m
  if acc.any fun p => p.1 = key then
    acc.map fun p =>
      if p.1 = key then (p.1, { p.2 with locations := p.2.locations ++ [loc] })
      else p
  else
    acc ++ [(key, { image_url := m.image_url
                    tag := m.tag
                    resolved_tag := m.resolved_tag
                    locations := [loc] })]

/-- The container (`local_nim`) half of models.rs
`AggregatedFindings::from_findings`: fold the source-code findings, then the
workflow findings, into the keyed map, and return its entries. -/
def aggregate_local_findings (source_code actions_workflow : List LocalNimMatch) :
    List AggregatedLocalNim :=
  (actions_workflow.foldl (upsertLocal "actions_workflow")
    (source_code.foldl (upsertLocal "source_code") [])).map Prod.snd

-- ============================================================================
-- Reference definitions used by the theorems
-- ============================================================================

/-- An outcome on which the retry loop continues: a 429, any 5xx, or a
transport error. -/
def retryableOutcome : HttpOutcome → Bool
  | HttpOutcome.ok s => s == 429 || isServerErrorStatus s
  | HttpOutcome.sendError _ => true

/-- The error recorded in `last_error` by the iteration that observes the
given retryable outcome. -/
def lastErrOf : HttpOutcome → Option RetryErr
  | HttpOutcome.ok s =>
    if s == 429 then some RetryErr.rateLimited
    else if isServerErrorStatus s then some (RetryErr.serverError s)
    else none
  | HttpOutcome.sendError m => some (RetryErr.transport m)

/-- The sleep performed by attempt `a` on the given retryable outcome:
exponential (base 2, exponent the attempt number) after a 429, flat 1 second
otherwise. -/
def sleepFor (a : Nat) : HttpOutcome → Nat
  | HttpOutcome.ok s => if s == 429 then 2 ^ a else 1
  | HttpOutcome.sendError _ => 1

/-- Reference deduplication, stated the way the spec words it: retain the
first-seen entry for each key and drop every later entry with the same key. -/
def firstSeenFilter {α K : Type} [DecidableEq K] (key : α → K) : List α → List α
  | [] => []
  | m :: ms =>
    m :: (firstSeenFilter key ms).filter fun x => decide (key x ≠ key m)

/-- Modelled from the spec (claim C5's wording) for comparison with
`extract_model_from_url`: derive the model from the URL path by taking the
last two NON-EMPTY path segments as org/model, rejecting an empty path, a
bare `v1`, the generic endings, and a blacklisted org segment — with no
minimum-segment-count requirement beyond the two used. -/
def extract_model_from_url_spec (url : String) : Option String :=
  match (stripPre "https://".data url.data).orElse
        (fun _ => stripPre "http://".data url.data) with
  | none => none
  | some rest =>
    let path := joinSep '/' ((splitOnChar '/' rest).drop 1)
    if path.isEmpty || path == "v1".data ||
       endsWithL path "/chat/completions".data ||
       endsWithL path "/embeddings".data ||
       endsWithL path "/completions".data then none
    else
      let segs := (splitOnChar '/' path).filter fun seg => !seg.isEmpty
      if 2 ≤ segs.length then
        let org := segs.getD (segs.length - 2) []
        let model := segs.getD (segs.length - 1) []
        if !(org == "v1".data) && !(org == "chat".data) && !(org == "embeddings".data)
        then some (String.mk (org ++ '/' :: model))
        else none
      else none

/-- A file whose endpoint line is line index 0 and whose model assignment
sits exactly 10 lines after it (line index 10). -/
def c6Lines : List String :=
  ["url: https://integrate.api.nvidia.com/v1",
   "x", "x", "x", "x", "x", "x", "x", "x", "x",
   "model: org/name"]

/-- Concrete finding used to witness the enrichment invariant. -/
def mWitC2 : LocalNimMatch :=
  { repository := "r"
    image_url := "nvcr.io/nim/a/b"
    tag := "latest"
    resolved_tag := none
    file_path := "f"
    line_number := 1
    match_context := "c" }

/-- Concrete resolve oracle used to witness the enrichment invariant. -/
def resolveWitC2 : String → Option String :=
  fun s => if s = "nvcr.io/nim/a/b" then some "1.2.3" else none

/-- The hosted finding produced on the witness line of claim C4. -/
def hWitC4 : HostedNimMatch :=
  { repository := "r"
    endpoint_url := some "https://ai.api.nvidia.com/v1/cv/baidu/paddleocr"
    model_name := some "baidu/paddleocr"
    file_path := "f"
    line_number := 7
    match_context := "url = \"https://ai.api.nvidia.com/v1/cv/baidu/paddleocr\""
    function_id := none
    status := none
    container_image := none }

/-- Two container findings with the same (image URL, tag) identity at
different locations, used to witness the aggregation claim. -/
def mWitC9a : LocalNimMatch :=
  { repository := "r1"
    image_url := "nvcr.io/nim/nvidia/test"
    tag := "1.0"
    resolved_tag := none
    file_path := "Dockerfile"
    line_number := 1
    match_context := "FROM nvcr.io/nim/nvidia/test:1.0" }

/-- Second witness finding for the aggregation claim (same identity as
`mWitC9a`, different location and enrichment field). -/
def mWitC9b : LocalNimMatch :=
  { repository := "r2"
    image_url := "nvcr.io/nim/nvidia/test"
    tag := "1.0"
    resolved_tag := some "9.9"
    file_path := "compose.yaml"
    line_number := 5
    match_context := "image: nvcr.io/nim/nvidia/test:1.0" }

/-- The ordered model-name fallback, stated the way the spec words it:
explicit model assignment first, then the three client-constructor patterns
in order, then (only when an endpoint was found) derivation from the
endpoint URL path. -/
def hostedModelFallback (line : String) : Option String :=
  (((((scanPositions matchModelAssignAt line.data).map String.mk).orElse fun _ =>
      (findChatNvidia line.data).map String.mk).orElse fun _ =>
      (findNvidiaEmbeddings line.data).map String.mk).orElse fun _ =>
      (findNvidiaRerank line.data).map String.mk).orElse fun _ =>
    ((scanPositions matchEndpointAt line.data).map String.mk).bind
      extract_model_from_url

/-- A finding set with two distinct entries sharing one (repository, file
path, line number) key, used to witness deduplication. -/
def fWitC7 : NimFindings :=
  { local_nim :=
      [LocalNimMatch.mk "t" "nvcr.io/nim/nvidia/test" "1.0" none "Dockerfile" 1 "a",
       LocalNimMatch.mk "t" "nvcr.io/nim/nvidia/test" "2.0" none "Dockerfile" 1 "b"]
    hosted_nim := [] }

-- ============================================================================
-- Helper lemmas
-- ============================================================================

/-- Stripping a literal from itself followed by anything succeeds. -/
theorem stripPre_append (p r : List Char) : stripPre p (p ++ r) = some r := by
  induction p with
  | nil => rfl
  | cons c cs ih => simp [stripPre, ih]

/-- `splitOnChar` never returns the empty list. -/
theorem splitOnChar_ne_nil (sep : Char) (l : List Char) :
    splitOnChar sep l ≠ [] := by
  cases l with
  | nil => simp [splitOnChar]
  | cons c cs =>
    simp only [splitOnChar]
    by_cases h : c = sep
    · simp [h]
    · simp only [h, if_false]
      cases splitOnChar sep cs <;> simp

/-- Splitting a separator-free list yields that single piece. -/
theorem splitOnChar_no_sep (sep : Char) (l : List Char)
    (h : ∀ c ∈ l, c ≠ sep) : splitOnChar sep l = [l] := by
  induction l with
  | nil => rfl
  | cons c cs ih =>
    have hc : c ≠ sep := h c (by simp)
    have ih1 := ih fun x hx => h x (by simp [hx])
    simp [splitOnChar, hc, ih1]

/-- Splitting a list whose first piece is separator-free peels that piece. -/
theorem splitOnChar_append_sep (sep : Char) (l1 l2 : List Char)
    (h : ∀ c ∈ l1, c ≠ sep) :
    splitOnChar sep (l1 ++ sep :: l2) = l1 :: splitOnChar sep l2 := by
  induction l1 with
  | nil => simp [splitOnChar]
  | cons c cs ih =>
    have hc : c ≠ sep := h c (by simp)
    have ih1 := ih fun x hx => h x (by simp [hx])
    simp only [List.cons_append, splitOnChar, hc, if_false]
    rw [show cs.append (sep :: l2) = cs ++ sep :: l2 from rfl, ih1]

/-- A successful leftmost scan succeeds at some start position (a suffix of
the haystack). -/
theorem scanPositions_eq_some {α : Type} (f : List Char → Option α)
    (cs : List Char) (r : α) (h : scanPositions f cs = some r) :
    ∃ suf, f suf = some r := by
  induction cs with
  | nil => exact ⟨[], h⟩
  | cons c cs ih =>
    rw [scanPositions] at h
    cases hf : f (c :: cs) with
    | some v => rw [hf] at h; exact ⟨c :: cs, by rw [hf]; exact h⟩
    | none => rw [hf] at h; exact ih h

/-- The slash is not in the segment character class. -/
theorem isNimC_slash : isNimC '/' = false := by decide

/-- Characters of a `takeWhile` run satisfy the predicate; specialized to
exclude the separator from extracted segments. -/
theorem no_slash_of_all_isNimC (l : List Char) (h : ∀ c ∈ l, isNimC c = true) :
    ∀ c ∈ l, c ≠ '/' := by
  intro c hc he
  have := h c hc
  rw [he, isNimC_slash] at this
  exact Bool.false_ne_true this

-- ============================================================================
-- Claim C8: source-type classification
-- ============================================================================

/-- Claim C8: classification is a pure function of the file path —
`determine_source_type` returns the workflow category iff, after replacing
backslashes by forward slashes, the path contains the marker segment
`.github/workflows/` and ends in `.yml` or `.yaml`; in particular
`.github/workflows/deploy.yml` is a workflow file while
`.github/actions/test.yml` and `src/main.py` are general source. -/
theorem C8_classification_by_path :
    (∀ p : String,
      determine_source_type p = SourceType.ActionsWorkflow ↔
        (containsSub (p.data.map fun c => if c = '\\' then '/' else c)
            ".github/workflows/".data = true ∧
         (endsWithL (p.data.map fun c => if c = '\\' then '/' else c)
            ".yml".data = true ∨
          endsWithL (p.data.map fun c => if c = '\\' then '/' else c)
            ".yaml".data = true))) ∧
    determine_source_type ".github/workflows/deploy.yml" =
      SourceType.ActionsWorkflow ∧
    determine_source_type ".github/actions/test.yml" = SourceType.SourceCode ∧
    determine_source_type "src/main.py" = SourceType.SourceCode := by
  refine ⟨fun p => ?_, by decide, by decide, by decide⟩
  simp only [determine_source_type]
  split
  next h =>
    simp only [Bool.and_eq_true, Bool.or_eq_true] at h
    exact iff_of_true rfl ⟨h.1, h.2⟩
  next h =>
    simp only [Bool.and_eq_true, Bool.or_eq_true] at h
    exact iff_of_false (by simp) fun hc => h ⟨hc.1, hc.2⟩

/-- Witness for C8: the characterization applied at a concrete path. -/
theorem C8_classification_by_path_witness :
    determine_source_type "dir\\.github\\workflows\\ci.yaml" =
      SourceType.ActionsWorkflow :=
  (C8_classification_by_path.1 "dir\\.github\\workflows\\ci.yaml").mpr
    (by refine ⟨by decide, Or.inr (by decide)⟩)

-- ============================================================================
-- Claim C1: HTTP retry policy
-- ============================================================================

/-- The retry loop makes at most as many attempts as iterations remain. -/
theorem getWithRetryGo_attempts_le (outcomes : Nat → HttpOutcome) :
    ∀ remaining attempt lastError,
      (getWithRetryGo outcomes attempt remaining lastError).attempts ≤ remaining := by
  intro remaining
  induction remaining with
  | zero => intro a e; simp [getWithRetryGo]
  | succ n ih =>
    intro a e
    simp only [getWithRetryGo]
    cases outcomes a with
    | ok s =>
      by_cases h1 : isSuccessStatus s = true
      · simp [h1]
      · by_cases h2 : s = 429
        · simp only [h1, if_false, h2, if_true]
          exact Nat.succ_le_succ (ih _ _)
        · by_cases h3 : isServerErrorStatus s = true
          · simp only [h1, if_false, h2, if_false, h3, if_true]
            exact Nat.succ_le_succ (ih _ _)
          · simp only [h1, if_false, h2, if_false, h3]
            simp
    | sendError m =>
      exact Nat.succ_le_succ (ih _ _)

/-- On a retryable outcome the loop sleeps the policy's duration, records
the outcome's error, and recurses with the next attempt number. -/
theorem getWithRetryGo_retryable_step (o : Nat → HttpOutcome) (a r : Nat)
    (e : Option RetryErr) (hr : r ≠ 0) (h : retryableOutcome (o a) = true) :
    getWithRetryGo o a r e =
      ⟨(getWithRetryGo o (a + 1) (r - 1) (lastErrOf (o a))).result,
       sleepFor a (o a) :: (getWithRetryGo o (a + 1) (r - 1) (lastErrOf (o a))).sleeps,
       (getWithRetryGo o (a + 1) (r - 1) (lastErrOf (o a))).attempts + 1⟩ := by
  obtain ⟨r2, rfl⟩ : ∃ r2, r = r2 + 1 := ⟨r - 1, by omega⟩
  cases ho : o a with
  | ok s =>
    rw [ho] at h
    simp only [retryableOutcome, Bool.or_eq_true, beq_iff_eq] at h
    have hns : isSuccessStatus s = false := by
      rw [Bool.eq_false_iff]
      simp only [isSuccessStatus, ne_eq, Bool.and_eq_true, decide_eq_true_eq, not_and, not_le]
      rcases h with h | h
      · omega
      · simp only [isServerErrorStatus, Bool.and_eq_true, decide_eq_true_eq] at h
        omega
    rcases h with h429 | h5
    · subst h429
      simp [getWithRetryGo, ho, hns, lastErrOf, sleepFor]
    · have hne : s ≠ 429 := by
        simp only [isServerErrorStatus, Bool.and_eq_true, decide_eq_true_eq] at h5
        omega
      have hbeq : (s == 429) = false := by simpa using hne
      simp [getWithRetryGo, ho, hns, hne, h5, lastErrOf, sleepFor, hbeq]
  | sendError m =>
    simp [getWithRetryGo, ho, lastErrOf, sleepFor]

/-- Claim C1: `get_with_retry` makes at most 3 attempts; a 2xx response
succeeds immediately; a 429 sleeps `2 ^ attempt` seconds and retries; a 5xx
sleeps a flat 1 second and retries; any other non-2xx status fails
immediately with no further attempt; a transport error sleeps a flat second
and retries; and when all 3 attempts are retryable the call fails carrying
the last observed error.  In particular [429, 500, 200] succeeds on the
third attempt and [500, 500, 500] exhausts retries and fails. -/
theorem C1_get_with_retry_policy :
    (∀ o, (get_with_retry o).attempts ≤ MAX_RETRIES) ∧
    (∀ o a r e s, o a = HttpOutcome.ok s → isSuccessStatus s = true →
      getWithRetryGo o a (r + 1) e = ⟨RetryResult.success a, [], 1⟩) ∧
    (∀ o a r e, o a = HttpOutcome.ok 429 →
      getWithRetryGo o a (r + 1) e =
        ⟨(getWithRetryGo o (a + 1) r (some RetryErr.rateLimited)).result,
         2 ^ a :: (getWithRetryGo o (a + 1) r (some RetryErr.rateLimited)).sleeps,
         (getWithRetryGo o (a + 1) r (some RetryErr.rateLimited)).attempts + 1⟩) ∧
    (∀ o a r e s, o a = HttpOutcome.ok s → isServerErrorStatus s = true →
      getWithRetryGo o a (r + 1) e =
        ⟨(getWithRetryGo o (a + 1) r (some (RetryErr.serverError s))).result,
         1 :: (getWithRetryGo o (a + 1) r (some (RetryErr.serverError s))).sleeps,
         (getWithRetryGo o (a + 1) r (some (RetryErr.serverError s))).attempts + 1⟩) ∧
    (∀ o a r e s, o a = HttpOutcome.ok s → isSuccessStatus s = false →
      s ≠ 429 → isServerErrorStatus s = false →
      getWithRetryGo o a (r + 1) e = ⟨RetryResult.clientError s, [], 1⟩) ∧
    (∀ o a r e msg, o a = HttpOutcome.sendError msg →
      getWithRetryGo o a (r + 1) e =
        ⟨(getWithRetryGo o (a + 1) r (some (RetryErr.transport msg))).result,
         1 :: (getWithRetryGo o (a + 1) r (some (RetryErr.transport msg))).sleeps,
         (getWithRetryGo o (a + 1) r (some (RetryErr.transport msg))).attempts + 1⟩) ∧
    (∀ o, (∀ i, 1 ≤ i → i ≤ MAX_RETRIES → retryableOutcome (o i) = true) →
      get_with_retry o =
        ⟨RetryResult.exhausted (lastErrOf (o 3)),
         [sleepFor 1 (o 1), sleepFor 2 (o 2), sleepFor 3 (o 3)], 3⟩) ∧
    get_with_retry (fun i => if i = 1 then HttpOutcome.ok 429
      else if i = 2 then HttpOutcome.ok 500 else HttpOutcome.ok 200) =
      ⟨RetryResult.success 3, [2, 1], 3⟩ ∧
    get_with_retry (fun _ => HttpOutcome.ok 500) =
      ⟨RetryResult.exhausted (some (RetryErr.serverError 500)), [1, 1, 1], 3⟩ := by
  refine ⟨?_, ?_, ?_, ?_, ?_, ?_, ?_, by decide, by decide⟩
  · intro o
    exact getWithRetryGo_attempts_le o MAX_RETRIES 1 none
  · intro o a r e s h1 h2
    simp [getWithRetryGo, h1, h2]
  · intro o a r e h
    have := getWithRetryGo_retryable_step o a (r + 1) e (by omega)
      (by rw [h]; decide)
    rw [h] at this
    simpa [lastErrOf, sleepFor] using this
  · intro o a r e s h1 h5
    have hne : s ≠ 429 := by
      simp only [isServerErrorStatus, Bool.and_eq_true, decide_eq_true_eq] at h5
      omega
    have hbeq : (s == 429) = false := by simpa using hne
    have := getWithRetryGo_retryable_step o a (r + 1) e (by omega)
      (by rw [h1]; simp [retryableOutcome, h5])
    rw [h1] at this
    simpa [lastErrOf, sleepFor, hbeq, hne, h5] using this
  · intro o a r e s h1 h2 h3 h4
    simp [getWithRetryGo, h1, h2, h3, h4]
  · intro o a r e msg h
    have := getWithRetryGo_retryable_step o a (r + 1) e (by omega)
      (by rw [h]; rfl)
    rw [h] at this
    simpa [lastErrOf, sleepFor] using this
  · intro o H
    have h1 := H 1 (by omega) (by decide)
    have h2 := H 2 (by omega) (by decide)
    have h3 := H 3 (by omega) (by decide)
    show getWithRetryGo o 1 3 none = _
    rw [getWithRetryGo_retryable_step o 1 3 none (by omega) h1]
    rw [show (3 : Nat) - 1 = 2 from rfl]
    rw [getWithRetryGo_retryable_step o 2 2 (lastErrOf (o 1)) (by omega) h2]
    rw [show (2 : Nat) - 1 = 1 from rfl]
    rw [getWithRetryGo_retryable_step o 3 1 (lastErrOf (o 2)) (by omega) h3]
    rw [show (1 : Nat) - 1 = 0 from rfl]
    simp [getWithRetryGo]

/-- Witness for C1: the per-case clauses applied at concrete outcomes. -/
theorem C1_get_with_retry_policy_witness :
    getWithRetryGo (fun _ => HttpOutcome.ok 204) 1 (0 + 1) none =
      ⟨RetryResult.success 1, [], 1⟩ ∧
    getWithRetryGo (fun _ => HttpOutcome.ok 404) 1 (2 + 1) none =
      ⟨RetryResult.clientError 404, [], 1⟩ ∧
    get_with_retry (fun _ => HttpOutcome.sendError "conn") =
      ⟨RetryResult.exhausted (some (RetryErr.transport "conn")), [1, 1, 1], 3⟩ :=
  ⟨C1_get_with_retry_policy.2.1 (fun _ => HttpOutcome.ok 204) 1 0 none 204 rfl
      (by decide),
   C1_get_with_retry_policy.2.2.2.2.1 (fun _ => HttpOutcome.ok 404) 1 2 none 404 rfl
      (by decide) (by decide) (by decide),
   C1_get_with_retry_policy.2.2.2.2.2.2.1 (fun _ => HttpOutcome.sendError "conn")
      (fun _ _ _ => rfl)⟩

-- ============================================================================
-- Claim C2: enrichment invariant
-- ============================================================================

/-- Claim C2: after `enrich_local_nim_matches` (with the remote lookup
modelled as the oracle `resolve`) the declared tag of every match is
unchanged; on inputs as produced by extraction (i.e. `resolved_tag = none`),
`resolved_tag` is `some` only for matches whose declared tag was the literal
`"latest"` or the empty string and for which the lookup succeeded; matches
with any other declared tag are left entirely unchanged; and extraction
always produces matches with `resolved_tag = none`. -/
theorem C2_enrichment_invariant :
    (∀ (resolve : String → Option String) (findings : NimFindings),
      (∀ m ∈ findings.local_nim, m.resolved_tag = none) →
      List.Forall₂ (fun m m2 =>
        m2.tag = m.tag ∧
        (m.tag ≠ "latest" → m.tag ≠ "" → m2 = m) ∧
        (∀ t, m2.resolved_tag = some t →
          (m.tag = "latest" ∨ m.tag = "") ∧ resolve m.image_url = some t))
        findings.local_nim
        (enrich_local_nim_matches resolve findings).local_nim) ∧
    (∀ line n fp repo m, extract_local_nim line n fp repo = some m →
      m.resolved_tag = none) := by
  constructor
  · intro resolve f h
    simp only [enrich_local_nim_matches]
    rw [List.forall₂_map_right_iff, List.forall₂_same]
    intro m hm
    have hnone := h m hm
    by_cases hc : (m.tag == "latest" || m.tag.isEmpty) = true
    · have hdisj : m.tag = "latest" ∨ m.tag = "" := by
        have hc2 := hc
        simp only [Bool.or_eq_true] at hc2
        rcases hc2 with h1 | h1
        · exact Or.inl (by simpa using h1)
        · exact Or.inr ((String.isEmpty_iff m.tag).mp h1)
      cases hr : resolve m.image_url with
      | some t =>
        dsimp only
        rw [if_pos hc]
        refine ⟨rfl, ?_, ?_⟩
        · intro hl he
          rcases hdisj with hd | hd
          · exact absurd hd hl
          · exact absurd hd he
        · intro t2 ht2
          exact ⟨hdisj, congrArg some (Option.some.inj ht2)⟩
      | none =>
        dsimp only
        rw [if_pos hc]
        refine ⟨rfl, fun _ _ => rfl, fun t2 ht2 => ?_⟩
        rw [hnone] at ht2
        exact absurd ht2 (by simp)
    · dsimp only
      rw [if_neg hc]
      refine ⟨rfl, fun _ _ => rfl, fun t2 ht2 => ?_⟩
      rw [hnone] at ht2
      exact absurd ht2 (by simp)
  · intro line n fp repo m h
    rw [extract_local_nim] at h
    split at h
    · cases Option.some.inj h
      rfl
    · split at h
      · cases Option.some.inj h
        rfl
      · exact absurd h (by simp)

/-- Witness for C2: the invariant applied to a one-element finding set and a
concrete resolve oracle. -/
theorem C2_enrichment_invariant_witness :
    List.Forall₂ (fun m m2 =>
        m2.tag = m.tag ∧
        (m.tag ≠ "latest" → m.tag ≠ "" → m2 = m) ∧
        (∀ t, m2.resolved_tag = some t →
          (m.tag = "latest" ∨ m.tag = "") ∧ resolveWitC2 m.image_url = some t))
      (NimFindings.mk [mWitC2] []).local_nim
      (enrich_local_nim_matches resolveWitC2 (NimFindings.mk [mWitC2] [])).local_nim :=
  C2_enrichment_invariant.1 resolveWitC2 (NimFindings.mk [mWitC2] [])
    (by intro m hm; simp only [List.mem_singleton] at hm; subst hm; rfl)

-- ============================================================================
-- Claim C3: container pattern priority and the sentinel tag
-- ============================================================================

/-- Claim C3: `extract_local_nim` tries the tag-bearing pattern first and, on
a match, returns a single finding whose tag is exactly the captured tag
group; only if that pattern fails does it try the no-tag pattern, whose
findings carry the sentinel tag `"latest"`; if both fail there is no finding
(the return type already limits the function to at most one finding per
line, the first match).  The spec's two scenarios are included as concrete
instances. -/
theorem C3_container_pattern_priority :
    (∀ (line : String) (line_number : Nat) (fp repo : String),
      (∀ s1 s2 tg, scanPositions matchLocalFullAt line.data = some (s1, s2, tg) →
        extract_local_nim line line_number fp repo = some
          { repository := repo
            image_url := String.mk (nimRegistryLit ++ s1 ++ '/' :: s2)
            tag := String.mk tg
            resolved_tag := none
            file_path := fp
            line_number := line_number
            match_context := rustTrim line }) ∧
      (scanPositions matchLocalFullAt line.data = none →
        ∀ s1 s2, scanPositions matchLocalNoTagAt line.data = some (s1, s2) →
        extract_local_nim line line_number fp repo = some
          { repository := repo
            image_url := String.mk (nimRegistryLit ++ s1 ++ '/' :: s2)
            tag := "latest"
            resolved_tag := none
            file_path := fp
            line_number := line_number
            match_context := rustTrim line }) ∧
      (scanPositions matchLocalFullAt line.data = none →
        scanPositions matchLocalNoTagAt line.data = none →
        extract_local_nim line line_number fp repo = none)) ∧
    extract_local_nim "image: nvcr.io/nim/nvidia/llama-3.2-nv-embedqa-1b-v2:1.10.0"
        1 "docker-compose.yaml" "test/repo" = some
      { repository := "test/repo"
        image_url := "nvcr.io/nim/nvidia/llama-3.2-nv-embedqa-1b-v2"
        tag := "1.10.0"
        resolved_tag := none
        file_path := "docker-compose.yaml"
        line_number := 1
        match_context := "image: nvcr.io/nim/nvidia/llama-3.2-nv-embedqa-1b-v2:1.10.0" } ∧
    extract_local_nim "FROM nvcr.io/nim/nvidia/nemo-retriever" 1 "Dockerfile"
        "test/repo" = some
      { repository := "test/repo"
        image_url := "nvcr.io/nim/nvidia/nemo-retriever"
        tag := "latest"
        resolved_tag := none
        file_path := "Dockerfile"
        line_number := 1
        match_context := "FROM nvcr.io/nim/nvidia/nemo-retriever" } := by
  refine ⟨fun line ln fp repo => ⟨?_, ?_, ?_⟩, by decide, by decide⟩
  · intro s1 s2 tg hfull
    rw [extract_local_nim, hfull]
  · intro hfull s1 s2 hno
    rw [extract_local_nim, hfull, hno]
  · intro hfull hno
    rw [extract_local_nim, hfull, hno]

/-- Witness for C3: the fallback clause applied on a concrete line that only
the no-tag pattern matches. -/
theorem C3_container_pattern_priority_witness :
    extract_local_nim "FROM nvcr.io/nim/a/b" 2 "Dockerfile" "r" = some
      { repository := "r"
        image_url := String.mk (nimRegistryLit ++ "a".data ++ '/' :: "b".data)
        tag := "latest"
        resolved_tag := none
        file_path := "Dockerfile"
        line_number := 2
        match_context := rustTrim "FROM nvcr.io/nim/a/b" } :=
  (C3_container_pattern_priority.1 "FROM nvcr.io/nim/a/b" 2 "Dockerfile" "r").2.1
    (by decide) "a".data "b".data (by decide)

-- ============================================================================
-- Claim C10: well-formedness of extracted image URLs and coordinate parsing
-- ============================================================================

/-- A successful tag-bearing match yields two non-empty segments drawn from
the segment character class. -/
theorem matchLocalFullAt_shape {cs : List Char} {s1 s2 tg : List Char}
    (h : matchLocalFullAt cs = some (s1, s2, tg)) :
    s1 ≠ [] ∧ s2 ≠ [] ∧ (∀ c ∈ s1, isNimC c = true) ∧ (∀ c ∈ s2, isNimC c = true) := by
  rw [matchLocalFullAt] at h
  split at h
  · exact absurd h (by simp)
  · dsimp only at h
    split at h
    next hs1 => exact absurd h (by simp)
    next hs1 =>
      split at h
      next r2 hdrop =>
        split at h
        next hs2 => exact absurd h (by simp)
        next hs2 =>
          split at h
          next r3 hdrop2 =>
            split at h
            next hs3 => exact absurd h (by simp)
            next hs3 =>
              simp only [Option.some.injEq, Prod.mk.injEq] at h
              obtain ⟨h1, h2, _⟩ := h
              subst h1; subst h2
              refine ⟨?_, ?_, fun c hc => List.mem_takeWhile_imp hc,
                fun c hc => List.mem_takeWhile_imp hc⟩
              · intro hnil
                exact hs1 (by rw [hnil]; rfl)
              · intro hnil
                exact hs2 (by rw [hnil]; rfl)
          next => exact absurd h (by simp)
      next => exact absurd h (by simp)

/-- A successful no-tag match yields two non-empty segments drawn from the
segment character class. -/
theorem matchLocalNoTagAt_shape {cs : List Char} {s1 s2 : List Char}
    (h : matchLocalNoTagAt cs = some (s1, s2)) :
    s1 ≠ [] ∧ s2 ≠ [] ∧ (∀ c ∈ s1, isNimC c = true) ∧ (∀ c ∈ s2, isNimC c = true) := by
  rw [matchLocalNoTagAt] at h
  split at h
  · exact absurd h (by simp)
  · dsimp only at h
    split at h
    next hs1 => exact absurd h (by simp)
    next hs1 =>
      split at h
      next r2 hdrop =>
        split at h
        next hs2 => exact absurd h (by simp)
        next hs2 =>
          split at h
          · simp only [Option.some.injEq, Prod.mk.injEq] at h
            obtain ⟨h1, h2⟩ := h
            subst h1; subst h2
            refine ⟨?_, ?_, fun c hc => List.mem_takeWhile_imp hc,
              fun c hc => List.mem_takeWhile_imp hc⟩
            · intro hnil
              exact hs1 (by rw [hnil]; rfl)
            · intro hnil
              exact hs2 (by rw [hnil]; rfl)
          · split at h
            · exact absurd h (by simp)
            · simp only [Option.some.injEq, Prod.mk.injEq] at h
              obtain ⟨h1, h2⟩ := h
              subst h1; subst h2
              refine ⟨?_, ?_, fun c hc => List.mem_takeWhile_imp hc,
                fun c hc => List.mem_takeWhile_imp hc⟩
              · intro hnil
                exact hs1 (by rw [hnil]; rfl)
              · intro hnil
                exact hs2 (by rw [hnil]; rfl)
      next => exact absurd h (by simp)

/-- Parsing an image coordinate of the shape produced by extraction recovers
the two segments as (team, model). -/
theorem parse_image_url_roundtrip (s1 s2 : List Char)
    (hc1 : ∀ c ∈ s1, isNimC c = true) (hc2 : ∀ c ∈ s2, isNimC c = true) :
    parse_image_url (String.mk (nimRegistryLit ++ s1 ++ '/' :: s2)) =
      some (String.mk s1, String.mk s2) := by
  rw [parse_image_url]
  rw [show (String.mk (nimRegistryLit ++ s1 ++ '/' :: s2)).data
      = nimRegistryLit ++ (s1 ++ '/' :: s2) from List.append_assoc _ _ _]
  rw [stripPre_append]
  dsimp only
  rw [splitOnChar_append_sep '/' s1 s2 (no_slash_of_all_isNimC s1 hc1)]
  rw [splitOnChar_no_sep '/' s2 (no_slash_of_all_isNimC s2 hc2)]
  rfl

/-- Claim C10: every finding produced by `extract_local_nim` has an image URL
of the exact form `nvcr.io/nim/` followed by two non-empty slash-separated
segments over the segment character class, and `parse_image_url` applied to
it always succeeds, returning those two segments — the coordinate-parse
failure branch is unreachable for scanner-produced findings. -/
theorem C10_image_url_parseable :
    ∀ (line : String) (n : Nat) (fp repo : String) (m : LocalNimMatch),
      extract_local_nim line n fp repo = some m →
      ∃ s1 s2, m.image_url = String.mk (nimRegistryLit ++ s1 ++ '/' :: s2) ∧
        s1 ≠ [] ∧ s2 ≠ [] ∧
        (∀ c ∈ s1, isNimC c = true) ∧ (∀ c ∈ s2, isNimC c = true) ∧
        parse_image_url m.image_url = some (String.mk s1, String.mk s2) := by
  intro line n fp repo m h
  rw [extract_local_nim] at h
  split at h
  next s1 s2 tg hfull =>
    obtain ⟨suf, hsuf⟩ := scanPositions_eq_some _ _ _ hfull
    obtain ⟨h1, h2, h3, h4⟩ := matchLocalFullAt_shape hsuf
    cases Option.some.inj h
    exact ⟨s1, s2, rfl, h1, h2, h3, h4, parse_image_url_roundtrip s1 s2 h3 h4⟩
  next hfull =>
    split at h
    next s1 s2 hno =>
      obtain ⟨suf, hsuf⟩ := scanPositions_eq_some _ _ _ hno
      obtain ⟨h1, h2, h3, h4⟩ := matchLocalNoTagAt_shape hsuf
      cases Option.some.inj h
      exact ⟨s1, s2, rfl, h1, h2, h3, h4, parse_image_url_roundtrip s1 s2 h3 h4⟩
    next => exact absurd h (by simp)

/-- Witness for C10: a concrete extracted finding whose image URL parses. -/
theorem C10_image_url_parseable_witness :
    ∃ s1 s2,
      (LocalNimMatch.mk "r" "nvcr.io/nim/nvidia/nemo-retriever" "latest" none
          "Dockerfile" 1 "FROM nvcr.io/nim/nvidia/nemo-retriever").image_url =
        String.mk (nimRegistryLit ++ s1 ++ '/' :: s2) ∧
      s1 ≠ [] ∧ s2 ≠ [] ∧
      (∀ c ∈ s1, isNimC c = true) ∧ (∀ c ∈ s2, isNimC c = true) ∧
      parse_image_url
        (LocalNimMatch.mk "r" "nvcr.io/nim/nvidia/nemo-retriever" "latest" none
          "Dockerfile" 1 "FROM nvcr.io/nim/nvidia/nemo-retriever").image_url =
        some (String.mk s1, String.mk s2) :=
  C10_image_url_parseable "FROM nvcr.io/nim/nvidia/nemo-retriever" 1 "Dockerfile"
    "r" _ (by decide)

-- ============================================================================
-- Claim C4: hosted-NIM extraction emits at most one finding per line
-- ============================================================================

/-- Claim C4: `extract_hosted_nim` returns at most one finding; it returns
exactly one iff an endpoint URL was matched or a model name was obtained by
the ordered fallback (explicit assignment, then the three client-constructor
patterns, then URL-path derivation); and the finding carries whichever of
endpoint and model name were found. -/
theorem C4_hosted_extraction :
    ∀ (line : String) (n : Nat) (fp repo : String),
      (extract_hosted_nim line n fp repo).length ≤ 1 ∧
      (extract_hosted_nim line n fp repo = [] ↔
        scanPositions matchEndpointAt line.data = none ∧
        hostedModelFallback line = none) ∧
      ∀ h ∈ extract_hosted_nim line n fp repo,
        h.endpoint_url = (scanPositions matchEndpointAt line.data).map String.mk ∧
        h.model_name = hostedModelFallback line ∧
        h.repository = repo ∧ h.file_path = fp ∧ h.line_number = n ∧
        h.match_context = rustTrim line ∧
        h.function_id = none ∧ h.status = none ∧ h.container_image = none := by
  intro line n fp repo
  simp only [extract_hosted_nim, hostedModelFallback]
  cases hA : scanPositions matchModelAssignAt line.data <;>
  cases hC : findChatNvidia line.data <;>
  cases hEm : findNvidiaEmbeddings line.data <;>
  cases hR : findNvidiaRerank line.data <;>
  cases hE : scanPositions matchEndpointAt line.data <;>
    simp_all [Option.orElse]

/-- Witness for C4: the per-finding clause applied to the finding emitted on
a concrete line carrying both an endpoint and a URL-derived model name. -/
theorem C4_hosted_extraction_witness :
    hWitC4.endpoint_url = (scanPositions matchEndpointAt
      ("url = \"https://ai.api.nvidia.com/v1/cv/baidu/paddleocr\"").data).map
        String.mk ∧
    hWitC4.model_name =
      hostedModelFallback "url = \"https://ai.api.nvidia.com/v1/cv/baidu/paddleocr\"" ∧
    hWitC4.repository = "r" ∧ hWitC4.file_path = "f" ∧ hWitC4.line_number = 7 ∧
    hWitC4.match_context =
      rustTrim "url = \"https://ai.api.nvidia.com/v1/cv/baidu/paddleocr\"" ∧
    hWitC4.function_id = none ∧ hWitC4.status = none ∧
    hWitC4.container_image = none :=
  (C4_hosted_extraction "url = \"https://ai.api.nvidia.com/v1/cv/baidu/paddleocr\""
      7 "f" "r").2.2 hWitC4 (by decide)

-- ============================================================================
-- Claim C5: URL-path model derivation (corrected)
-- ============================================================================

/-- Counterexample to claim C5 as stated: on
`https://ai.api.nvidia.com/v1/baidu/paddleocr` the path after the domain is
`v1/baidu/paddleocr` — non-empty, not the bare `v1`, with no generic ending,
and with last two non-empty segments `baidu`/`paddleocr` and an
unblacklisted org — yet `extract_model_from_url` returns `none`, because the
code additionally requires at least four slash-separated path segments
(`parts.len() >= 4`).  The claim-worded reference (`extract_model_from_url_spec`)
returns `some "baidu/paddleocr"` here. -/
theorem C5_counterexample_three_segments :
    extract_model_from_url "https://ai.api.nvidia.com/v1/baidu/paddleocr" = none ∧
    extract_model_from_url_spec "https://ai.api.nvidia.com/v1/baidu/paddleocr" =
      some "baidu/paddleocr" ∧
    joinSep '/' ((splitOnChar '/'
        ("ai.api.nvidia.com/v1/baidu/paddleocr").data).drop 1) =
      "v1/baidu/paddleocr".data := by
  refine ⟨by decide, by decide, by decide⟩

/-- Claim C5 as amended: the URL-path derivation returns the literal last
two path segments joined as org/model exactly when the path after the domain
is non-empty, is not the bare segment `v1`, does not end with
`/chat/completions`, `/embeddings`, or `/completions`, splits into at least
four slash-separated segments, and the last two segments are non-empty with
the org segment not `v1`, `chat`, or `embeddings`; it returns none exactly
when one of those rejections applies. -/
theorem C5_amended_url_derivation :
    ∀ (url m : String),
      extract_model_from_url url = some m ↔
      ∃ rest path parts,
        (stripPre "https://".data url.data).orElse
          (fun _ => stripPre "http://".data url.data) = some rest ∧
        path = joinSep '/' ((splitOnChar '/' rest).drop 1) ∧
        parts = splitOnChar '/' path ∧
        path ≠ [] ∧ path ≠ "v1".data ∧
        endsWithL path "/chat/completions".data = false ∧
        endsWithL path "/embeddings".data = false ∧
        endsWithL path "/completions".data = false ∧
        4 ≤ parts.length ∧
        parts.getD (parts.length - 2) [] ≠ [] ∧
        parts.getD (parts.length - 1) [] ≠ [] ∧
        parts.getD (parts.length - 2) [] ≠ "v1".data ∧
        parts.getD (parts.length - 2) [] ≠ "chat".data ∧
        parts.getD (parts.length - 2) [] ≠ "embeddings".data ∧
        m = String.mk (parts.getD (parts.length - 2) [] ++ '/' ::
            parts.getD (parts.length - 1) []) := by
  intro url m
  rw [extract_model_from_url]
  constructor
  · intro h
    split at h
    · exact absurd h (by simp)
    next rest hstrip =>
      dsimp only at h
      split at h
      · exact absurd h (by simp)
      next hrej =>
        simp only [Bool.or_eq_true, not_or, List.isEmpty_iff, beq_iff_eq,
          Bool.not_eq_true] at hrej
        obtain ⟨⟨⟨⟨hne, hv1⟩, hg1⟩, hg2⟩, hg3⟩ := hrej
        split at h
        next hlen =>
          split at h
          next hcond =>
            simp only [Bool.and_eq_true, Bool.not_eq_true', beq_eq_false_iff_ne,
              ne_eq, List.isEmpty_eq_false] at hcond
            obtain ⟨⟨⟨⟨ho, hm⟩, hov1⟩, hoch⟩, hoem⟩ := hcond
            simp only [Option.some.injEq] at h
            exact ⟨rest, _, _, hstrip, rfl, rfl, hne, hv1, hg1, hg2, hg3, hlen,
              ho, hm, hov1, hoch, hoem, h.symm⟩
          next => exact absurd h (by simp)
        next => exact absurd h (by simp)
  · rintro ⟨rest, path, parts, hstrip, hpath, hparts, hne, hv1, hg1, hg2, hg3,
      hlen, ho, hm2, hov1, hoch, hoem, hmeq⟩
    rw [hstrip]
    dsimp only
    subst hpath
    subst hparts
    rw [if_neg (by
      simp only [Bool.or_eq_true, not_or, List.isEmpty_iff, beq_iff_eq,
        Bool.not_eq_true]
      exact ⟨⟨⟨⟨hne, hv1⟩, hg1⟩, hg2⟩, hg3⟩)]
    rw [if_pos hlen]
    rw [if_pos (by
      simp only [Bool.and_eq_true, Bool.not_eq_true', beq_eq_false_iff_ne,
        ne_eq, List.isEmpty_eq_false]
      exact ⟨⟨⟨⟨ho, hm2⟩, hov1⟩, hoch⟩, hoem⟩)]
    rw [hmeq]

/-- Witness for C5's amended characterization: the backward direction
applied at a concrete four-segment URL. -/
theorem C5_amended_url_derivation_witness :
    extract_model_from_url "https://ai.api.nvidia.com/v1/cv/baidu/paddleocr" =
      some "baidu/paddleocr" :=
  (C5_amended_url_derivation "https://ai.api.nvidia.com/v1/cv/baidu/paddleocr"
      "baidu/paddleocr").mpr
    ⟨"ai.api.nvidia.com/v1/cv/baidu/paddleocr".data,
     "v1/cv/baidu/paddleocr".data,
     ["v1".data, "cv".data, "baidu".data, "paddleocr".data],
     by decide, by decide, by decide, by decide, by decide, by decide,
     by decide, by decide, by decide, by decide, by decide, by decide,
     by decide, by decide, by decide⟩

-- ============================================================================
-- Claim C6: YAML context window (code bug: forward window is 9, not 10)
-- ============================================================================

/-- Claim C6 names a symmetric 10-line window, matching the call site's own
comment ("Look up to 10 lines before and after"), but the forward loop bound
`(current_line + range)` is exclusive, so only 9 lines after the current one
are examined.  Concretely: with the model assignment exactly 10 lines after
the endpoint line, the search misses it (`none`), although that line matches
the context pattern, and a range of 11 — or the mirrored file searched
backward, where the window really is 10 — finds it. -/
theorem C6_forward_window_off_by_one :
    find_model_name_in_context c6Lines 0 10 = none ∧
    modelNameCapture (c6Lines.getD 10 "") = some "org/name" ∧
    find_model_name_in_context c6Lines 0 11 = some "org/name" ∧
    find_model_name_in_context c6Lines.reverse 10 10 = some "org/name" := by
  refine ⟨by decide, by decide, by decide, by decide⟩

-- ============================================================================
-- Claim C7: deduplication keeps the first-seen entry per key, idempotently
-- ============================================================================

/-- The seen-set loop, restricted to keys outside `seen`, is the spec-worded
first-seen filter. -/
theorem dedupGo_eq_filter_firstSeen {α K : Type} [DecidableEq K] (key : α → K)
    (seen : List K) (ms : List α) :
    dedupGo key seen ms =
      (firstSeenFilter key ms).filter fun x => decide (key x ∉ seen) := by
  induction ms generalizing seen with
  | nil => rfl
  | cons m ms ih =>
    rw [dedupGo, firstSeenFilter]
    by_cases hm : key m ∈ seen
    · rw [if_pos hm, ih]
      have hd : (decide (key m ∉ seen)) = false := by simp [hm]
      simp only [List.filter_cons, hd, if_false, Bool.false_eq_true]
      rw [List.filter_filter]
      apply List.filter_congr
      intro x _
      by_cases h1 : key x = key m <;> by_cases h2 : key x ∈ seen <;>
        simp [h1, h2] <;> simp_all
    · rw [if_neg hm, ih]
      have hd : (decide (key m ∉ seen)) = true := by simp [hm]
      simp only [List.filter_cons, hd, if_true]
      congr 1
      rw [List.filter_filter]
      apply List.filter_congr
      intro x _
      by_cases h1 : key x = key m <;> by_cases h2 : key x ∈ seen <;>
        simp [h1, h2]

/-- `firstSeenFilter` commutes with filtering by any key-based predicate. -/
theorem firstSeenFilter_filter_comm {α K : Type} [DecidableEq K] (key : α → K)
    (p : K → Bool) (l : List α) :
    firstSeenFilter key (l.filter fun x => p (key x)) =
      (firstSeenFilter key l).filter fun x => p (key x) := by
  induction l with
  | nil => rfl
  | cons x xs ih =>
    by_cases hx : p (key x) = true
    · simp only [List.filter_cons, hx, if_true]
      rw [firstSeenFilter, firstSeenFilter, ih]
      simp only [List.filter_cons, hx, if_true]
      congr 1
      rw [List.filter_filter, List.filter_filter]
      apply List.filter_congr
      intro y _
      exact Bool.and_comm _ _
    · simp only [List.filter_cons, hx, if_false, Bool.false_eq_true]
      rw [firstSeenFilter, ih]
      simp only [List.filter_cons, hx, if_false, Bool.false_eq_true]
      rw [List.filter_filter]
      apply List.filter_congr
      intro y _
      by_cases h1 : key y = key x
      · rw [h1]
        simp [hx]
      · simp [h1]

/-- The first-seen filter is idempotent. -/
theorem firstSeenFilter_idem {α K : Type} [DecidableEq K] (key : α → K)
    (l : List α) :
    firstSeenFilter key (firstSeenFilter key l) = firstSeenFilter key l := by
  induction l with
  | nil => rfl
  | cons m ms ih =>
    rw [firstSeenFilter, firstSeenFilter]
    congr 1
    rw [firstSeenFilter_filter_comm key (fun k => decide (k ≠ key m)), ih]
    rw [List.filter_filter]
    apply List.filter_congr
    intro y _
    exact Bool.and_self _

/-- The loop started with an empty seen set is exactly the first-seen
filter. -/
theorem dedupGo_nil {α K : Type} [DecidableEq K] (key : α → K) (ms : List α) :
    dedupGo key [] ms = firstSeenFilter key ms := by
  rw [dedupGo_eq_filter_firstSeen]
  have : ∀ x ∈ firstSeenFilter key ms, (decide (key x ∉ ([] : List K))) = true := by
    intro x _
    simp
  rw [List.filter_eq_self.mpr this]

/-- Claim C7: `deduplicate_results` retains, within the container list and
the hosted list independently, exactly the first-seen entry for each
(repository, file path, line number) triple, dropping every later entry
with the same triple regardless of other field differences; consequently it
is idempotent. -/
theorem C7_deduplication :
    ∀ findings : NimFindings,
      (deduplicate_results findings).local_nim =
        firstSeenFilter localKey findings.local_nim ∧
      (deduplicate_results findings).hosted_nim =
        firstSeenFilter hostedKey findings.hosted_nim ∧
      deduplicate_results (deduplicate_results findings) =
        deduplicate_results findings := by
  intro f
  refine ⟨dedupGo_nil localKey f.local_nim, dedupGo_nil hostedKey f.hosted_nim, ?_⟩
  simp only [deduplicate_results]
  congr 1
  · rw [dedupGo_nil, dedupGo_nil]
    exact firstSeenFilter_idem _ _
  · rw [dedupGo_nil, dedupGo_nil]
    exact firstSeenFilter_idem _ _

/-- Witness for C7: the characterization and idempotence at a concrete
finding set containing a same-key duplicate. -/
theorem C7_deduplication_witness :
    (deduplicate_results fWitC7).local_nim =
      firstSeenFilter localKey fWitC7.local_nim ∧
    deduplicate_results (deduplicate_results fWitC7) =
      deduplicate_results fWitC7 :=
  ⟨(C7_deduplication fWitC7).1, (C7_deduplication fWitC7).2.2⟩

-- ============================================================================
-- Claim C9: container aggregation merges identical identities
-- ============================================================================

/-- Claim C9: two container references with identical (image URL, tag)
identity aggregate into exactly one entry carrying two location records (one
per input) and the enrichment fields of whichever reference was merged
first; the entry count and the multiset of location records agree for either
input order. -/
theorem C9_aggregation_pair :
    ∀ m1 m2 : LocalNimMatch,
      m1.image_url = m2.image_url → m1.tag = m2.tag →
      aggregate_local_findings [m1, m2] [] =
        [{ image_url := m1.image_url, tag := m1.tag,
           resolved_tag := m1.resolved_tag,
           locations := [mkNimLocation "source_code" m1,
                         mkNimLocation "source_code" m2] }] ∧
      aggregate_local_findings [m2, m1] [] =
        [{ image_url := m2.image_url, tag := m2.tag,
           resolved_tag := m2.resolved_tag,
           locations := [mkNimLocation "source_code" m2,
                         mkNimLocation "source_code" m1] }] ∧
      (aggregate_local_findings [m1, m2] []).length = 1 ∧
      (aggregate_local_findings [m2, m1] []).length = 1 ∧
      List.Perm
        ((aggregate_local_findings [m1, m2] []).flatMap AggregatedLocalNim.locations)
        ((aggregate_local_findings [m2, m1] []).flatMap AggregatedLocalNim.locations) := by
  intro m1 m2 h1 h2
  have h12 : aggregate_local_findings [m1, m2] [] =
      [{ image_url := m1.image_url, tag := m1.tag,
         resolved_tag := m1.resolved_tag,
         locations := [mkNimLocation "source_code" m1,
                       mkNimLocation "source_code" m2] }] := by
    simp [aggregate_local_findings, upsertLocal, h1, h2]
  have h21 : aggregate_local_findings [m2, m1] [] =
      [{ image_url := m2.image_url, tag := m2.tag,
         resolved_tag := m2.resolved_tag,
         locations := [mkNimLocation "source_code" m2,
                       mkNimLocation "source_code" m1] }] := by
    simp [aggregate_local_findings, upsertLocal, h1, h2]
  refine ⟨h12, h21, by rw [h12]; rfl, by rw [h21]; rfl, ?_⟩
  rw [h12, h21]
  simp only [List.flatMap_cons, List.flatMap_nil, List.append_nil]
  exact List.Perm.swap _ _ _

/-- Witness for C9: the pair clause applied to two concrete same-identity
findings (the second carrying a different enrichment field, which the merge
must not adopt). -/
theorem C9_aggregation_pair_witness :
    aggregate_local_findings [mWitC9a, mWitC9b] [] =
      [{ image_url := mWitC9a.image_url, tag := mWitC9a.tag,
         resolved_tag := mWitC9a.resolved_tag,
         locations := [mkNimLocation "source_code" mWitC9a,
                       mkNimLocation "source_code" mWitC9b] }] ∧
    (aggregate_local_findings [mWitC9b, mWitC9a] []).length = 1 :=
  ⟨(C9_aggregation_pair mWitC9a mWitC9b rfl rfl).1,
   (C9_aggregation_pair mWitC9a mWitC9b rfl rfl).2.2.2.1⟩
